import Mathlib

/-!
Verification of the slot-game LINE chatbot core (src/app.py).

The embedding models, faithfully to the Python source:
  - the record-lookup function search_game (pandas str.contains with its
    default regex=True and case=False semantics, fallback to the second
    dataframe, head(max_results), message formatting),
  - the feature extractor analyze_game_features,
  - the summary helper summarize_game,
  - the advanced rule table GAME_FEATURE_RULES with advanced_analyze_game,
  - the description search function search_by_feature over the
    pd.concat of both dataframes.

Machine strings are modelled as Lean String / List Char; Python str.lower
is modelled on ASCII (the rules and claims only involve ASCII letters).
Pandas cell values are modelled by PdValue (a string or the float NaN that
pandas puts in missing cells); a column absent from a dataframe is an
Option.none field.  Python exceptions (re.error from compiling a malformed
keyword regex, TypeError from len() on a NaN cell) are modelled with
Except.
-/

namespace SlotApp

/-- ASCII model of Python str.lower applied to one character. -/
def pyLower (c : Char) : Char :=
  if 65 ≤ c.toNat ∧ c.toNat ≤ 90 then Char.ofNat (c.toNat + 32) else c

/-- ASCII model of Python str.lower on a character list. -/
def pyLowerL (l : List Char) : List Char := l.map pyLower

/-- Decimal digit test, the model of the regex class \d on ASCII input. -/
def isDigitC (c : Char) : Bool := decide (48 ≤ c.toNat ∧ c.toNat ≤ 57)

/-- Whitespace characters of Python str.strip and of the regex class \s. -/
def isPySpace (c : Char) : Bool :=
  c == ' ' || c == '\t' || c == '\n' || c == '\r' || c.toNat == 11 || c.toNat == 12

/-- Word character test for regex word boundaries, ASCII model of \w. -/
def isWordChar (c : Char) : Bool := c.isAlpha || isDigitC c || c == '_'

/-- Model of Python str.strip: drop whitespace from both ends. -/
def pyStrip (l : List Char) : List Char :=
  ((l.dropWhile isPySpace).reverse.dropWhile isPySpace).reverse

/-- Model of str.replace of a newline by a space (the replaced text is one
character, so a character map is exact). -/
def replaceNl (l : List Char) : List Char :=
  l.map (fun c => if c == '\n' then ' ' else c)

/-- Boolean list-prefix test. -/
def isPrefL : List Char → List Char → Bool
  | [], _ => true
  | _ :: _, [] => false
  | a :: as, b :: bs => a == b && isPrefL as bs

/-- Boolean substring containment, the model of the Python expression
pat in hay on strings. -/
def containsL (hay pat : List Char) : Bool :=
  hay.tails.any (fun t => isPrefL pat t)

/-- Model of Python sep.join(parts). -/
def joinSep (sep : String) : List String → String
  | [] => ""
  | [x] => x
  | x :: y :: ys => x ++ (sep ++ joinSep sep (y :: ys))

theorem strData_append (a b : String) : (a ++ b).data = a.data ++ b.data := by
  cases a; cases b; rfl

theorem joinSep_data_cons (sep x : String) (xs : List String) :
    ∃ t, (joinSep sep (x :: xs)).data = x.data ++ t := by
  cases xs with
  | nil => exact ⟨[], by simp [joinSep]⟩
  | cons y ys => exact ⟨(sep ++ joinSep sep (y :: ys)).data, by simp [joinSep, strData_append]⟩

theorem isPrefL_self_append (p t : List Char) : isPrefL p (p ++ t) = true := by
  induction p with
  | nil => rfl
  | cons c cs ih => simp [isPrefL, ih]

theorem isPrefL_append_of {p l : List Char} (h : isPrefL p l = true) (b : List Char) :
    isPrefL p (l ++ b) = true := by
  induction p generalizing l with
  | nil => rfl
  | cons c cs ih =>
    cases l with
    | nil => simp [isPrefL] at h
    | cons d ds =>
      simp only [isPrefL, Bool.and_eq_true] at h
      simp [isPrefL, h.1, ih h.2]

theorem containsL_cons (c : Char) (l p : List Char) :
    containsL (c :: l) p = (isPrefL p (c :: l) || containsL l p) := by
  simp [containsL, List.tails]

theorem containsL_of_pref {p s : List Char} (h : isPrefL p s = true) :
    containsL s p = true := by
  cases s with
  | nil => simpa [containsL, List.tails] using h
  | cons c cs => simp [containsL_cons, h]

theorem containsL_nil_pat (s : List Char) : containsL s [] = true :=
  containsL_of_pref (by cases s <;> rfl)

theorem containsL_append_right {b p : List Char} (h : containsL b p = true) (a : List Char) :
    containsL (a ++ b) p = true := by
  induction a with
  | nil => simpa using h
  | cons c cs ih => simp [containsL_cons, ih]

theorem containsL_append_left {a p : List Char} (h : containsL a p = true) (b : List Char) :
    containsL (a ++ b) p = true := by
  induction a with
  | nil =>
    have hp : p = [] := by
      cases p with
      | nil => rfl
      | cons q qs => simp [containsL, List.tails, isPrefL] at h
    subst hp; exact containsL_nil_pat _
  | cons c cs ih =>
    rw [containsL_cons] at h
    rcases Bool.or_eq_true_iff.mp h with h1 | h2
    · exact containsL_of_pref (by simpa using isPrefL_append_of h1 b)
    · simp [containsL_cons, ih h2]

theorem containsL_join_of_mem {x : String} {items : List String} (h : x ∈ items)
    (sep : String) : containsL (joinSep sep items).data x.data = true := by
  induction items with
  | nil => cases h
  | cons y ys ih =>
    rcases List.mem_cons.mp h with rfl | hmem
    · obtain ⟨t, ht⟩ := joinSep_data_cons sep x ys
      rw [ht]
      exact containsL_of_pref (isPrefL_self_append _ _)
    · cases ys with
      | nil => cases hmem
      | cons z zs =>
        have hin := ih hmem
        have : (joinSep sep (y :: z :: zs)).data
            = y.data ++ (sep.data ++ (joinSep sep (z :: zs)).data) := by
          simp [joinSep, strData_append]
        rw [this]
        exact containsL_append_right (containsL_append_right hin _) _

/-! Regular expressions.  Pandas str.contains compiles the keyword with
re.compile (regex=True is its default), and analyze_game_features,
GAME_FEATURE_RULES and summarize_game use re.search directly, so the
embedding carries a small regex engine covering the constructs that occur:
character literals, the classes \d \s \w, the dot, bracket sets,
and the quantifiers ? + *.  Matching is by Brzozowski derivatives. -/

/-- Character class of a single regex atom. -/
inductive CharCls where
  | lit (c : Char)
  | digit
  | space
  | wordc
  | anyc
  | set (cs : List Char)
deriving DecidableEq

/-- Does a character belong to a class?  The dot does not match a newline,
as in Python re without DOTALL. -/
def clsMatch : CharCls → Char → Bool
  | .lit a, c => c == a
  | .digit, c => isDigitC c
  | .space, c => isPySpace c
  | .wordc, c => isWordChar c
  | .anyc, c => !(c == '\n')
  | .set cs, c => cs.contains c

/-- Regex abstract syntax. -/
inductive Regex where
  | emp
  | eps
  | cls (k : CharCls)
  | cat (r s : Regex)
  | alt (r s : Regex)
  | star (r : Regex)
deriving DecidableEq

/-- Does the regex accept the empty word? -/
def nullable : Regex → Bool
  | .emp => false
  | .eps => true
  | .cls _ => false
  | .cat r s => nullable r && nullable s
  | .alt r s => nullable r || nullable s
  | .star _ => true

/-- Brzozowski derivative by one character. -/
def deriv : Regex → Char → Regex
  | .emp, _ => .emp
  | .eps, _ => .emp
  | .cls k, c => if clsMatch k c then .eps else .emp
  | .cat r s, c => if nullable r then .alt (.cat (deriv r c) s) (deriv s c)
                   else .cat (deriv r c) s
  | .alt r s, c => .alt (deriv r c) (deriv s c)
  | .star r, c => .cat (deriv r c) (.star r)

/-- Does the regex match some prefix of the word? -/
def mpre (r : Regex) : List Char → Bool
  | [] => nullable r
  | c :: cs => nullable r || mpre (deriv r c) cs

/-- Does the regex match anywhere in the word?  This is the truthiness of
Python re.search. -/
def rsearch (r : Regex) (s : List Char) : Bool :=
  s.tails.any (fun t => mpre r t)

/-- Exact-match semantics of a regex, as an inductive relation. -/
inductive RMatch : Regex → List Char → Prop where
  | eps : RMatch .eps []
  | cls {k : CharCls} {c : Char} (h : clsMatch k c = true) : RMatch (.cls k) [c]
  | cat {r s : Regex} {u v : List Char} (hr : RMatch r u) (hs : RMatch s v) :
      RMatch (.cat r s) (u ++ v)
  | altL {r s : Regex} {u : List Char} (h : RMatch r u) : RMatch (.alt r s) u
  | altR {r s : Regex} {u : List Char} (h : RMatch s u) : RMatch (.alt r s) u
  | starNil {r : Regex} : RMatch (.star r) []
  | starCons {r : Regex} {u v : List Char} (hu : RMatch r u) (hv : RMatch (.star r) v) :
      RMatch (.star r) (u ++ v)

theorem nullable_of_rmatch_nil {r : Regex} {s : List Char} (h : RMatch r s) :
    s = [] → nullable r = true := by
  induction h with
  | eps => intro; rfl
  | cls _ => intro h; cases h
  | cat hr hs ihr ihs =>
    intro h
    rcases List.append_eq_nil.mp h with ⟨h1, h2⟩
    simp [nullable, ihr h1, ihs h2]
  | altL _ ih => intro h; simp [nullable, ih h]
  | altR _ ih => intro h; simp [nullable, ih h]
  | starNil => intro; rfl
  | starCons _ _ _ _ => intro; rfl

theorem deriv_rmatch {r : Regex} {s : List Char} (h : RMatch r s) :
    ∀ {c : Char} {t : List Char}, s = c :: t → RMatch (deriv r c) t := by
  induction h with
  | eps => intro c t h; cases h
  | cls hk =>
    intro c t h
    cases h
    simp only [deriv, hk, if_true]
    exact RMatch.eps
  | cat hr hs ihr ihs =>
    intro c t h
    rename_i r s u v
    cases u with
    | nil =>
      simp only [List.nil_append] at h
      have hn := nullable_of_rmatch_nil hr rfl
      simp only [deriv, hn, if_true]
      exact RMatch.altR (ihs h)
    | cons a u2 =>
      cases h' : (a :: u2 : List Char) with
      | nil => cases h'
      | cons b u3 =>
        rw [h'] at h
        cases h' ; cases h
        have hd : RMatch (deriv r c) u2 := ihr rfl
        have : RMatch (.cat (deriv r c) s) (u2 ++ v) := RMatch.cat hd hs
        by_cases hn : nullable r = true
        · simp only [deriv, hn, if_true]
          exact RMatch.altL this
        · simp only [deriv, Bool.not_eq_true] at hn
          simp only [deriv, hn]
          simpa using this
  | altL _ ih =>
    intro c t h
    exact RMatch.altL (ih h)
  | altR _ ih =>
    intro c t h
    exact RMatch.altR (ih h)
  | starNil => intro c t h; cases h
  | starCons hu hv ihu ihv =>
    intro c t h
    rename_i r u v
    cases u with
    | nil =>
      simp only [List.nil_append] at h
      exact ihv h
    | cons a u2 =>
      cases h
      have hd : RMatch (deriv r c) u2 := ihu rfl
      exact RMatch.cat hd hv

theorem mpre_of_rmatch {u : List Char} :
    ∀ {r : Regex}, RMatch r u → ∀ (v : List Char), mpre r (u ++ v) = true := by
  induction u with
  | nil =>
    intro r h v
    have hn := nullable_of_rmatch_nil h rfl
    cases v <;> simp [mpre, hn]
  | cons c u2 ih =>
    intro r h v
    have hd : RMatch (deriv r c) u2 := deriv_rmatch h rfl
    simp [mpre, ih hd v]

theorem rsearch_of_rmatch {r : Regex} {u : List Char} (pre post : List Char)
    (h : RMatch r u) : rsearch r (pre ++ u ++ post) = true := by
  have hmem : (u ++ post) ∈ (pre ++ u ++ post).tails :=
    (List.mem_tails _ _).mpr ⟨pre, by simp⟩
  exact List.any_eq_true.mpr ⟨u ++ post, hmem, mpre_of_rmatch h post⟩

theorem mpre_alt (a b : Regex) (s : List Char) :
    mpre (.alt a b) s = (mpre a s || mpre b s) := by
  induction s generalizing a b with
  | nil => simp [mpre, nullable]
  | cons c cs ih =>
    simp only [mpre, deriv, nullable, ih]
    cases mpre (deriv a c) cs <;> cases mpre (deriv b c) cs <;>
      cases nullable a <;> cases nullable b <;> simp

theorem mpre_catEmpL (R : Regex) (s : List Char) :
    mpre (.cat .emp R) s = false := by
  induction s with
  | nil => simp [mpre, nullable]
  | cons c cs ih => simpa [mpre, deriv, nullable] using ih

theorem mpre_catEps (R : Regex) (s : List Char) :
    mpre (.cat .eps R) s = mpre R s := by
  induction s generalizing R with
  | nil => simp [mpre, nullable]
  | cons c cs ih =>
    simp [mpre, deriv, nullable, mpre_alt, mpre_catEmpL]

/-- Regex that matches exactly one literal word. -/
def litRegex : List Char → Regex
  | [] => .eps
  | c :: cs => .cat (.cls (.lit c)) (litRegex cs)

theorem mpre_lit (l s : List Char) : mpre (litRegex l) s = isPrefL l s := by
  induction l generalizing s with
  | nil =>
    cases s <;> simp [litRegex, mpre, nullable, isPrefL]
  | cons c cs ih =>
    cases s with
    | nil => simp [litRegex, mpre, nullable, isPrefL]
    | cons d ds =>
      simp only [litRegex, mpre, nullable, clsMatch, Bool.and_eq_true, Bool.false_or,
        Bool.false_and, deriv, if_false]
      by_cases hd : d = c
      · subst hd
        simp [isPrefL, mpre_catEps, ih]
      · have hne : (d == c) = false := by simp [hd]
        have hne2 : (c == d) = false := by
          simp only [beq_eq_false_iff_ne, ne_eq]
          exact fun h => hd h.symm
        simp [hne, hne2, mpre_catEmpL, isPrefL]

theorem rsearch_lit (l s : List Char) : rsearch (litRegex l) s = containsL s l := by
  unfold rsearch containsL
  induction s.tails with
  | nil => rfl
  | cons t ts ih => simp [List.any_cons, mpre_lit, ih]

theorem rsearch_eps (s : List Char) : rsearch .eps s = true := by
  cases s with
  | nil => simp [rsearch, List.tails, mpre, nullable]
  | cons c cs => simp [rsearch, List.tails, mpre, nullable]

/-! Parser for the Python-re subset.  A pattern string is parsed into a
Regex; parse failure models the re.error exception that re.compile (and
hence pandas str.contains) raises on a malformed pattern.  Unsupported
re constructs (groups, alternation, anchors, counted repeats, ranges
inside bracket sets, the escapes with a letter meaning other than
d, s, w) are outside the modelled subset and parse as failures; none of
them occurs in the repository's patterns. -/

/-- Characters that cannot start an atom: quantifiers with nothing to
repeat, and the unsupported metacharacters. -/
def isFailChar (c : Char) : Bool :=
  c == '^' || c == '$' || c == '*' || c == '+' || c == '?' ||
  c == '(' || c == ')' || c == '|' || c.toNat == 123 || c.toNat == 125

/-- Meaning of a backslash escape.  Letter and digit escapes other than
\d \s \w are errors (as in Python re); escaped punctuation is literal. -/
def escCls : Char → Option CharCls
  | 'd' => some .digit
  | 's' => some .space
  | 'w' => some .wordc
  | c => if c.isAlpha || isDigitC c then none else some (.lit c)

/-- Read the members of a bracket set up to the closing bracket. -/
def parseSetAux : List Char → Option (List Char × List Char)
  | [] => none
  | c :: rest =>
    if c == ']' then some ([], rest)
    else if c == '\\' then none
    else (parseSetAux rest).map (fun p => (c :: p.1, p.2))

/-- Parse a bracket set after its opening bracket. -/
def parseSet (l : List Char) : Option (List Char × List Char) :=
  match parseSetAux l with
  | some (cs, rest) => if cs.isEmpty then none else some (cs, rest)
  | none => none

/-- After an atom, apply at most one postfix quantifier and continue with
the rest of the sequence. -/
def parseContWith (next : List Char → Option (List Regex)) (a : Regex) :
    List Char → Option (List Regex)
  | [] => (next []).map (fun rs => a :: rs)
  | q :: r3 =>
    if q == '*' then (next r3).map (fun rs => Regex.star a :: rs)
    else if q == '+' then (next r3).map (fun rs => Regex.cat a (Regex.star a) :: rs)
    else if q == '?' then (next r3).map (fun rs => Regex.alt a Regex.eps :: rs)
    else (next (q :: r3)).map (fun rs => a :: rs)

/-- Parse a sequence of atoms with quantifiers.  The fuel only bounds the
recursion; any fuel of at least the input length suffices because every
step consumes at least one character. -/
def parseSeq : Nat → List Char → Option (List Regex)
  | _, [] => some []
  | 0, _ :: _ => none
  | fuel + 1, c :: rest =>
    if c == '\\' then
      match rest with
      | [] => none
      | e :: rest2 =>
        match escCls e with
        | none => none
        | some k => parseContWith (parseSeq fuel) (.cls k) rest2
    else if c == '[' then
      match parseSet rest with
      | none => none
      | some (cs, rest2) => parseContWith (parseSeq fuel) (.cls (.set cs)) rest2
    else if c == '.' then parseContWith (parseSeq fuel) (.cls .anyc) rest
    else if isFailChar c then none
    else parseContWith (parseSeq fuel) (.cls (.lit c)) rest

/-- Model of re.compile: parse a pattern string, none meaning re.error. -/
def parseRegex (p : String) : Option Regex :=
  (parseSeq (p.data.length + 1) p.data).map (fun rs => rs.foldr Regex.cat Regex.eps)

/-- Lower the literal content of a class, for IGNORECASE matching. -/
def lowerCls : CharCls → CharCls
  | .lit c => .lit (pyLower c)
  | .set cs => .set (pyLowerL cs)
  | k => k

/-- Lower the literal content of a regex, for IGNORECASE matching. -/
def lowerRegex : Regex → Regex
  | .emp => .emp
  | .eps => .eps
  | .cls k => .cls (lowerCls k)
  | .cat r s => .cat (lowerRegex r) (lowerRegex s)
  | .alt r s => .alt (lowerRegex r) (lowerRegex s)
  | .star r => .star (lowerRegex r)

/-- Model of the pattern compilation done by str.contains(keyword,
case=False): compile the keyword, with IGNORECASE realised on ASCII by
lowering the pattern literals (the searched text is lowered too). -/
def compileCI (kw : String) : Option Regex := (parseRegex kw).map lowerRegex

/-- A character with no special regex meaning in the modelled subset. -/
def isLiteralChar (c : Char) : Bool :=
  !(c == '\\' || c == '[' || c == '.' || isFailChar c)

/-- A keyword made only of regex-transparent characters. -/
def isLiteralPat (kw : String) : Bool := kw.data.all isLiteralChar

theorem parseSeq_literal (l : List Char) : ∀ fuel, l.length ≤ fuel →
    (∀ c ∈ l, isLiteralChar c = true) →
    parseSeq fuel l = some (l.map (fun c => Regex.cls (.lit c))) := by
  induction l with
  | nil => intro fuel _ _; cases fuel <;> rfl
  | cons c cs ih =>
    intro fuel hlen hall
    cases fuel with
    | zero => simp at hlen
    | succ f =>
      have hc := hall c (List.mem_cons_self c cs)
      simp only [isLiteralChar, Bool.not_eq_true', Bool.or_eq_false_iff] at hc
      obtain ⟨⟨⟨hbs, hbr⟩, hdot⟩, hfail⟩ := hc
      simp only [parseSeq, hbs, hbr, hdot, hfail, if_false, Bool.false_eq_true]
      have hrec : parseSeq f cs = some (cs.map (fun c => Regex.cls (.lit c))) :=
        ih f (by simpa using Nat.succ_le_succ_iff.mp hlen)
          (fun d hd => hall d (List.mem_cons_of_mem c hd))
      cases cs with
      | nil => simp [parseContWith, hrec]
      | cons q qs =>
        have hq := hall q (List.mem_cons_of_mem c (List.mem_cons_self q qs))
        simp only [isLiteralChar, Bool.not_eq_true', Bool.or_eq_false_iff] at hq
        obtain ⟨⟨⟨_, _⟩, _⟩, hqfail⟩ := hq
        simp only [isFailChar, Bool.or_eq_false_iff] at hqfail
        obtain ⟨⟨⟨⟨⟨⟨⟨⟨⟨_, _⟩, hstar⟩, hplus⟩, hquest⟩, _⟩, _⟩, _⟩, _⟩, _⟩ := hqfail
        simp [parseContWith, hstar, hplus, hquest, hrec]

theorem foldr_cat_litRegex (l : List Char) :
    (l.map (fun c => Regex.cls (.lit c))).foldr Regex.cat Regex.eps = litRegex l := by
  induction l with
  | nil => rfl
  | cons c cs ih => simp [litRegex, ih]

theorem parseRegex_literal {kw : String} (h : isLiteralPat kw = true) :
    parseRegex kw = some (litRegex kw.data) := by
  unfold parseRegex
  rw [parseSeq_literal kw.data (kw.data.length + 1) (Nat.le_succ _)
    (fun c hc => List.all_eq_true.mp h c hc)]
  simp [foldr_cat_litRegex]

theorem lowerRegex_lit (l : List Char) :
    lowerRegex (litRegex l) = litRegex (pyLowerL l) := by
  induction l with
  | nil => rfl
  | cons c cs ih => simp [litRegex, lowerRegex, lowerCls, pyLowerL, ih]

theorem compileCI_literal {kw : String} (h : isLiteralPat kw = true) :
    compileCI kw = some (litRegex (pyLowerL kw.data)) := by
  simp [compileCI, parseRegex_literal h, lowerRegex_lit]

/-! Data model.  A dataframe cell is a string or NaN (pandas fills missing
values with the float NaN); a column can be absent from a dataframe
altogether, which is the none case of the Option.  One GameRecord is one
row; the bigwinboard CSV carries the columns Title, RTP, URL, Description,
Image and the statistic columns, the demoslot CSV carries game_name, url,
description, image_url, as evidenced by which accessors the code applies
to each frame. -/

/-- One pandas cell: the float NaN or a string value. -/
inductive PdValue where
  | nan
  | str (s : String)
deriving DecidableEq

/-- One dataframe row.  A none field is a column that does not exist in
the row's frame; some .nan is a present column holding NaN. -/
structure GameRecord where
  Title : Option PdValue := none
  game_name : Option PdValue := none
  RTP : Option PdValue := none
  URL : Option PdValue := none
  url : Option PdValue := none
  Description : Option PdValue := none
  description : Option PdValue := none
  Image : Option PdValue := none
  image_url : Option PdValue := none
  stats : List (String × PdValue) := []
deriving DecidableEq

/-- Rendering of a cell value inside an f-string (str(nan) is "nan"). -/
def pyStrA : PdValue → String
  | .nan => "nan"
  | .str s => s

/-- Python truthiness of row.get(column) (None and the empty string are
falsy; NaN, being a nonzero float, is truthy). -/
def pyTruthy : Option PdValue → Bool
  | none => false
  | some .nan => true
  | some (.str s) => !s.data.isEmpty

/-- Python expression a or b on two row.get results. -/
def pyOrO (a b : Option PdValue) : Option PdValue := if pyTruthy a then a else b

/-- Python str() of a row.get result. -/
def pyStr : Option PdValue → String
  | none => "None"
  | some .nan => "nan"
  | some (.str s) => s

/-! The feature extractor analyze_game_features.  The description is
lowercased once; every rule is an independent substring or regex test
appending a fixed label, except the grid rule which embeds the matched
text re.search(r"\d+x\d+", desc).group(). -/

/-- Leftmost match text of the pattern \d+x\d+, scanning positions left to
right as re.search does.  Since a digit is never the letter x, the greedy
\d+ runs are exactly the maximal digit runs, so the matched text at a
position is forced and no backtracking arises. -/
def gridGroup : List Char → Option (List Char)
  | [] => none
  | c :: rest =>
    let ds1 := (c :: rest).takeWhile isDigitC
    if ds1.isEmpty then gridGroup rest
    else
      match (c :: rest).drop ds1.length with
      | 'x' :: after =>
        let ds2 := after.takeWhile isDigitC
        if ds2.isEmpty then gridGroup rest else some (ds1 ++ 'x' :: ds2)
      | _ => gridGroup rest

/-- Entries of the category 🎲 基本玩法, in rule order. -/
def basicItems (desc : List Char) : List String :=
  (match gridGroup desc with
   | some g => ["格子結構：" ++ String.mk g]
   | none => []) ++
  (if containsL desc "cluster pays".data then ["Cluster Pays"] else []) ++
  (if containsL desc "megaways".data then ["Megaways"] else []) ++
  (if containsL desc "ways to win".data then ["多線中獎"] else [])

/-- Entries of the category 💥 特色機制, in rule order. -/
def specialItems (desc : List Char) : List String :=
  (if containsL desc "tumble".data || containsL desc "cascade".data then ["滾落/連擊機制"] else []) ++
  (if containsL desc "expanding symbol".data then ["擴展符號"] else []) ++
  (if containsL desc "sticky".data then ["黏性符號"] else []) ++
  (if containsL desc "walking wild".data then ["移動 wild"] else [])

/-- Entries of the category 🛠️ 功能特色, in rule order. -/
def funcItems (desc : List Char) : List String :=
  (if containsL desc "free spin".data then ["免費旋轉"] else []) ++
  (if containsL desc "multiplier".data then ["乘數機制"] else []) ++
  (if containsL desc "bonus buy".data || containsL desc "buy feature".data then ["購買功能"] else []) ++
  (if containsL desc "jackpot".data then ["獎池/大獎"] else [])

/-- Rendering of one nonempty category:
f-string section：newline bullet, then the bullet-joined items. -/
def renderCat (name : String) (items : List String) : String :=
  name ++ ("：\n• " ++ joinSep "\n• " items)

/-- The summary list built by the loop over features.items(), keeping
only categories with at least one entry, in the fixed insertion order of
the features dict. -/
def summaryList (desc : List Char) : List String :=
  (if (basicItems desc).isEmpty then [] else [renderCat "🎲 基本玩法" (basicItems desc)]) ++
  (if (specialItems desc).isEmpty then [] else [renderCat "💥 特色機制" (specialItems desc)]) ++
  (if (funcItems desc).isEmpty then [] else [renderCat "🛠️ 功能特色" (funcItems desc)])

/-- Model of analyze_game_features. -/
def analyze_game_features (description : String) : String :=
  let desc := pyLowerL description.data
  let s := summaryList desc
  if s.isEmpty then "⚠️ 無法從描述中解析出玩法資訊。" else joinSep "\n\n" s

/-! The helper summarize_game.  Its two regex rules carry word boundaries
(\b5[- ]reels?\b and \b20 paylines?\b), which the derivative engine does
not model, so those two fixed patterns are translated into equivalent
explicit position scanners: a match needs a non-word character (or an
end) on both sides, and the optional s is taken when it is followed by a
boundary, otherwise dropped. -/

/-- Match of 5[- ]reels?\b at the head of the suffix. -/
def reels5At : List Char → Bool
  | '5' :: d :: 'r' :: 'e' :: 'e' :: 'l' :: rest =>
    (d == '-' || d == ' ') &&
    (match rest with
     | 's' :: rest2 =>
       (match rest2 with
        | [] => true
        | c :: _ => !isWordChar c)
     | [] => true
     | c :: _ => !isWordChar c)
  | _ => false

/-- Match of 20 paylines?\b at the head of the suffix. -/
def paylines20At : List Char → Bool
  | '2' :: '0' :: ' ' :: 'p' :: 'a' :: 'y' :: 'l' :: 'i' :: 'n' :: 'e' :: rest =>
    (match rest with
     | 's' :: rest2 =>
       (match rest2 with
        | [] => true
        | c :: _ => !isWordChar c)
     | [] => true
     | c :: _ => !isWordChar c)
  | _ => false

/-- Scan all positions, tracking the previous character for the leading
word boundary. -/
def searchWBGo (atHead : List Char → Bool) (prev : Option Char) : List Char → Bool
  | [] => false
  | c :: rest =>
    ((match prev with
      | none => true
      | some p => !isWordChar p) && atHead (c :: rest)) ||
    searchWBGo atHead (some c) rest

/-- Truthiness of re.search(r"\b5[- ]reels?\b", desc). -/
def searchReels5 (s : List Char) : Bool := searchWBGo reels5At none s

/-- Truthiness of re.search(r"\b20 paylines?\b", desc). -/
def searchPaylines20 (s : List Char) : Bool := searchWBGo paylines20At none s

/-- Model of summarize_game. -/
def summarize_game (description : String) : String :=
  let desc := pyLowerL description.data
  let parts : List String :=
    (if searchReels5 desc then ["• 5 軸盤面，常見配置。"] else []) ++
    (if searchPaylines20 desc then ["• 20 條固定賠付線。"] else []) ++
    (if containsL desc "cluster pays".data then ["• 採用 Cluster Pays 群組支付機制。"] else []) ++
    (if containsL desc "megaways".data then ["• Megaways 機制，連動格數變化增加中獎方式。"] else []) ++
    (if containsL desc "wild transformation".data then ["• Wild 轉換機制，可將特定符號變為 Wild。"] else []) ++
    (if containsL desc "free spins".data then ["• 免費旋轉功能，由 Scatter 符號或特殊條件觸發。"] else []) ++
    (if containsL desc "symbol to wild".data then ["• 特定符號可永久轉換為 Wild 進行高配。"] else []) ++
    (if containsL desc "multiplier".data then ["• 可疊加或遞增的倍數增益。"] else []) ++
    (if containsL desc "mystery symbol".data then ["• 神秘符號機制，轉軸後同步顯示相同圖案。"] else []) ++
    (if containsL desc "buy feature".data || containsL desc "bonus buy".data then ["• 可付費直接進入免費遊戲模式。"] else [])
  if parts.isEmpty then "🔍 玩法說明：尚無明確資訊。"
  else "🔍 玩法說明：\n" ++ joinSep "\n" parts

/-! The advanced rule table and advanced_analyze_game.  Every entry of
GAME_FEATURE_RULES is a Python str (a raw string literal is still a str),
so the isinstance branch tests literal containment first and the elif
falls back to re.search on the same text. -/

/-- The table 進階玩法規則辨識, verbatim. -/
def GAME_FEATURE_RULES : List (String × List String) :=
  [("基本盤面", ["\\d+\\s*x\\s*\\d+", "\\d+\\s*reels?", "\\d+\\s*rows?"]),
   ("支付方式", ["cluster pays", "megaways", "ways to win", "payline"]),
   ("免費遊戲", ["free spins?", "scatter", "bonus round"]),
   ("wild 特性", ["wild transformation", "walking wild", "sticky wild", "expanding wild"]),
   ("特殊功能", ["buy feature", "bonus buy", "orb bonus", "super bonus", "hold and win"])]

/-- Truthiness of re.search(pattern, desc) for a table pattern (all table
patterns are valid in the modelled subset, so the none branch is inert). -/
def rsearchOpt (pat : String) (desc : List Char) : Bool :=
  match parseRegex pat with
  | some r => rsearch r desc
  | none => false

/-- A pattern fires when its literal text occurs in the description or,
failing that, when it matches as a regex. -/
def patMatches (desc : List Char) (pat : String) : Bool :=
  containsL desc pat.data || rsearchOpt pat desc

/-- The line contributed by a firing pattern: 包含 for the literal branch
and 符合 for the regex branch. -/
def hitLine (desc : List Char) (category pat : String) : String :=
  if containsL desc pat.data then "• " ++ (category ++ ("：包含 " ++ pat))
  else "• " ++ (category ++ ("：符合 " ++ pat))

/-- The inner for loop over one category's patterns, with its break after
the first firing pattern. -/
def firstHit (desc : List Char) (category : String) : List String → Option String
  | [] => none
  | pat :: pats =>
    if containsL desc pat.data then some ("• " ++ (category ++ ("：包含 " ++ pat)))
    else if rsearchOpt pat desc then some ("• " ++ (category ++ ("：符合 " ++ pat)))
    else firstHit desc category pats

/-- The outer for loop over the categories of the table. -/
def advancedScan (desc : List Char) : List (String × List String) → List String
  | [] => []
  | (category, pats) :: rest =>
    (match firstHit desc category pats with
     | some line => [line]
     | none => []) ++ advancedScan desc rest

/-- The collected feature lines of advanced_analyze_game. -/
def advancedLines (desc : List Char) : List String :=
  advancedScan desc GAME_FEATURE_RULES

/-- Model of advanced_analyze_game. -/
def advanced_analyze_game (description : String) : String :=
  let desc := pyLowerL description.data
  let features := advancedLines desc
  if features.isEmpty then "⚠️ 無法解析明確玩法資訊"
  else "📊 進階玩法解析：\n" ++ joinSep "\n" features

/-! Record lookup: format_game_stats, the per-row message, and
search_game with its dataframe filters. -/

/-- The STAT_FIELDS table, verbatim. -/
def STAT_FIELDS : List (String × String) :=
  [("Reels", "🎰 Reels"), ("Rows", "🎰 Rows"), ("Paylines", "📈 Paylines"),
   ("Hit Frequency", "🎯 Hit Freq"), ("Free Spins Frequency", "🎯 Free Spins Freq"),
   ("Max Win", "💰 Max Win"), ("Max Win Probability", "📊 Max Win Probability"),
   ("Volatility", "⚖️ Volatility"), ("Min/Max Bet", "💵 Min/Max Bet"),
   ("Release Date", "🗓️ Release Date")]

/-- Assoc lookup over the statistic columns of a row, the model of
row.get(key) restricted to those columns. -/
def statGet (r : GameRecord) (key : String) : Option PdValue :=
  (r.stats.find? (fun p => p.1 == key)).map (fun p => p.2)

/-- Model of format_game_stats: keep the fields whose value passes
pd.notna (None and NaN fail it), rendered label: value. -/
def format_game_stats (r : GameRecord) : String :=
  joinSep "\n"
    (STAT_FIELDS.filterMap (fun kl =>
      match statGet r kl.1 with
      | some (.str v) => some (kl.2 ++ (": " ++ v))
      | _ => none))

/-- Python exceptions that the lookup can raise: re.error from compiling a
malformed keyword regex, and the TypeError of len() applied to the float
NaN found in a description cell. -/
inductive PyErr where
  | reError
  | typeError
deriving DecidableEq

/-- The message built for one matched row.  The description comes from
row.get("Description", row.get("description", "")); a NaN cell there
reaches len(desc) and raises TypeError. -/
def rowMessage (r : GameRecord) : Except PyErr String :=
  match r.Description.getD (r.description.getD (.str "")) with
  | .nan => .error .typeError
  | .str desc =>
    let name := pyStrA (r.Title.getD (r.game_name.getD (.str "未知遊戲")))
    let rtp := pyStrA (r.RTP.getD (.str "N/A"))
    let url := pyStrA (r.URL.getD (r.url.getD (.str "")))
    let img := pyStrA (r.Image.getD (r.image_url.getD (.str "（無圖片）")))
    let short_desc :=
      if desc.data.length > 200
      then String.mk (replaceNl (pyStrip (desc.data.take 200))) ++ "..."
      else String.mk (pyStrip desc.data)
    .ok ("🎰 遊戲：" ++ (name ++ ("\n🎯 RTP：" ++ (rtp ++ ("\n🔗 " ++ (url ++
      ("\n📖 遊戲簡介：\n" ++ (short_desc ++ ("\n\n" ++ (summarize_game desc ++
      ("\n\n" ++ (analyze_game_features desc ++ ("\n\n" ++ (advanced_analyze_game desc ++
      ("\n\n📊 遊戲數據：\n" ++ (format_game_stats r ++ ("\n\n🖼️ 圖片：" ++ img)))))))))))))))))

/-- The loop appending one message per row of result.head(max_results),
stopping at the first raised exception. -/
def buildMessages : List GameRecord → Except PyErr (List String)
  | [] => .ok []
  | r :: rs =>
    match rowMessage r with
    | .error e => .error e
    | .ok m =>
      match buildMessages rs with
      | .error e => .error e
      | .ok ms => .ok (m :: ms)

/-- The name used by the bigwinboard filter:
bigwinboard_df["Title"].astype(str), where astype(str) turns NaN into
the string "nan". -/
def bwTitle (r : GameRecord) : String := pyStrA (r.Title.getD .nan)

/-- The name used by the demoslot filter:
demoslot_df["game_name"].astype(str). -/
def dsName (r : GameRecord) : String := pyStrA (r.game_name.getD .nan)

/-- The primary filter of search_game over the bigwinboard frame; the
IGNORECASE of case=False is realised by searching the lowered text with
the lowered compiled keyword. -/
def primaryMatches (bw : List GameRecord) (re : Regex) : List GameRecord :=
  bw.filter (fun r => rsearch re (pyLowerL (bwTitle r).data))

/-- The fallback filter of search_game over the demoslot frame. -/
def fallbackMatches (ds : List GameRecord) (re : Regex) : List GameRecord :=
  ds.filter (fun r => rsearch re (pyLowerL (dsName r).data))

/-- The result frame after the fallback step of search_game. -/
def selectedRecords (bw ds : List GameRecord) (re : Regex) : List GameRecord :=
  let result := primaryMatches bw re
  if result.isEmpty then fallbackMatches ds re else result

/-- The records search_game iterates over: the selected frame truncated by
head(max_results); none is the re.error raised on a malformed keyword. -/
def search_game_records (bw ds : List GameRecord) (keyword : String)
    (max_results : Nat := 3) : Option (List GameRecord) :=
  (compileCI keyword).map (fun re => (selectedRecords bw ds re).take max_results)

/-- Model of search_game. -/
def search_game (bw ds : List GameRecord) (keyword : String)
    (max_results : Nat := 3) : Except PyErr String :=
  match compileCI keyword with
  | none => .error .reError
  | some re =>
    let result := selectedRecords bw ds re
    if result.isEmpty then .ok "❌ 找不到相關遊戲。"
    else
      match buildMessages (result.take max_results) with
      | .error e => .error e
      | .ok msgs => .ok (joinSep "\n\n" msgs)

/-! search_by_feature over pd.concat([bigwinboard_df, demoslot_df],
ignore_index=True).  The concatenated frame's columns are the union of
both column sets, and a row coming from the frame that lacks a column
gets NaN in it. -/

/-- A row as it appears in the concatenated frame: every modelled column
present, absent original cells filled with NaN. -/
def toCombined (r : GameRecord) : GameRecord :=
  { Title := some (r.Title.getD .nan), game_name := some (r.game_name.getD .nan),
    RTP := some (r.RTP.getD .nan), URL := some (r.URL.getD .nan),
    url := some (r.url.getD .nan), Description := some (r.Description.getD .nan),
    description := some (r.description.getD .nan), Image := some (r.Image.getD .nan),
    image_url := some (r.image_url.getD .nan), stats := r.stats }

/-- Model of pd.concat of the two frames. -/
def combinedRows (bw ds : List GameRecord) : List GameRecord :=
  (bw ++ ds).map toCombined

/-- The description text search_by_feature compares against:
str(row.get("Description") or row.get("description") or "").lower().
NaN is truthy, so a NaN Description cell short-circuits the or chain and
str() renders it as the text nan. -/
def sbfDesc (r : GameRecord) : List Char :=
  pyLowerL (pyStr (pyOrO (pyOrO r.Description r.description) (some (.str "")))).data

/-- The reply line for one matching row of search_by_feature. -/
def sbfEntry (r : GameRecord) : String :=
  "🎰 " ++ (pyStrA (r.Title.getD (r.game_name.getD (.str "未知遊戲"))) ++
    ("\n🔗 " ++ pyStrA (r.URL.getD (r.url.getD (.str "")))))

/-- The loop of search_by_feature, with its break once len(results)
reaches 10. -/
def sbfLoop (kw : List Char) : List GameRecord → List String → List String
  | [], acc => acc
  | r :: rest, acc =>
    let acc2 := if containsL (sbfDesc r) kw then acc ++ [sbfEntry r] else acc
    if 10 ≤ acc2.length then acc2 else sbfLoop kw rest acc2

/-- Model of search_by_feature. -/
def search_by_feature (bw ds : List GameRecord) (keyword : String) : String :=
  let kw := pyLowerL keyword.data
  let results := sbfLoop kw (combinedRows bw ds) []
  if results.isEmpty then "❌ 找不到包含該機制的遊戲。" else joinSep "\n\n" results

/-! Helper lemmas for the claim theorems. -/

theorem joinSep_ne_of_head (sep m : String) (rest : List String) (c1 c2 : Char)
    (u : List Char) (hm : m.data = c1 :: u) (s2 : String)
    (hs : s2.data.head? = some c2) (hne : c1 ≠ c2) :
    joinSep sep (m :: rest) ≠ s2 := by
  intro heq
  obtain ⟨t, ht⟩ := joinSep_data_cons sep m rest
  have hd := congrArg (fun l => l.head?) (congrArg String.data heq)
  simp only [ht, hm, List.cons_append, List.head?_cons, hs] at hd
  injection hd with hd2
  exact hne hd2

theorem mem_ite_singleton {p : Prop} [Decidable p] {x it : String}
    (h : it ∈ (if p then [x] else [])) : it = x := by
  by_cases hp : p
  · simpa [hp] using h
  · simp [hp] at h

theorem ite_nil_singleton_eq_nil {α : Type} {p : Prop} [Decidable p] {x : α}
    (h : (if p then ([] : List α) else [x]) = []) : p := by
  by_cases hp : p
  · exact hp
  · simp [hp] at h

theorem ite_singleton_nil_eq_nil {α : Type} {p : Prop} [Decidable p] {x : α}
    (h : (if p then [x] else ([] : List α)) = []) : ¬p := by
  by_cases hp : p
  · simp [hp] at h
  · exact hp

theorem filter_rsearch_eps {α : Type} (f : α → List Char) (l : List α) :
    l.filter (fun r => rsearch .eps (f r)) = l := by
  induction l with
  | nil => rfl
  | cons a as ih => simp [List.filter, rsearch_eps, ih]

theorem firstHit_eq_find (desc : List Char) (category : String) (pats : List String) :
    firstHit desc category pats =
      (pats.find? (patMatches desc)).map (hitLine desc category) := by
  induction pats with
  | nil => rfl
  | cons p ps ih =>
    by_cases hc : containsL desc p.data = true
    · have hp : patMatches desc p = true := by simp [patMatches, hc]
      simp [firstHit, hc, List.find?, hp, hitLine]
    · have hc2 : containsL desc p.data = false := by simpa using hc
      by_cases hr : rsearchOpt p desc = true
      · have hp : patMatches desc p = true := by simp [patMatches, hr]
        simp [firstHit, hc2, hr, List.find?, hp, hitLine]
      · have hr2 : rsearchOpt p desc = false := by simpa using hr
        have hp : patMatches desc p = false := by simp [patMatches, hc2, hr2]
        simp [firstHit, hc2, hr2, List.find?, hp, ih]

theorem advancedScan_eq_filterMap (desc : List Char) (rules : List (String × List String)) :
    advancedScan desc rules =
      rules.filterMap (fun cp =>
        ((cp.2).find? (patMatches desc)).map (hitLine desc cp.1)) := by
  induction rules with
  | nil => rfl
  | cons cp rest ih =>
    obtain ⟨category, pats⟩ := cp
    rw [advancedScan, firstHit_eq_find, List.filterMap_cons, ih]
    cases (pats.find? (patMatches desc)).map (hitLine desc category) <;> simp

theorem rowMessage_isOk {r : GameRecord}
    (hr : r.Description.getD (r.description.getD (.str "")) ≠ PdValue.nan) :
    ∃ m, rowMessage r = .ok m := by
  unfold rowMessage
  cases hv : r.Description.getD (r.description.getD (.str "")) with
  | nan => exact absurd hv hr
  | str s => exact ⟨_, rfl⟩

theorem buildMessages_ok_of_descOk (l : List GameRecord)
    (h : ∀ r ∈ l, r.Description.getD (r.description.getD (.str "")) ≠ PdValue.nan) :
    ∃ ms, buildMessages l = .ok ms := by
  induction l with
  | nil => exact ⟨[], rfl⟩
  | cons r rs ih =>
    obtain ⟨ms, hms⟩ := ih (fun d hd => h d (List.mem_cons_of_mem r hd))
    obtain ⟨m, hm⟩ := rowMessage_isOk (h r (List.mem_cons_self r rs))
    exact ⟨m :: ms, by rw [buildMessages, hm, hms]⟩

theorem rowMessage_ok_head {r : GameRecord} {m : String}
    (h : rowMessage r = .ok m) : ∃ u, m.data = '🎰' :: u := by
  unfold rowMessage at h
  cases hv : r.Description.getD (r.description.getD (.str "")) with
  | nan => rw [hv] at h; cases h
  | str s =>
    rw [hv] at h
    injection h with h2
    rw [← h2, strData_append]
    exact ⟨_, rfl⟩

theorem buildMessages_mem {l : List GameRecord} {ms : List String}
    (h : buildMessages l = .ok ms) :
    ∀ m ∈ ms, ∃ r ∈ l, rowMessage r = .ok m := by
  induction l generalizing ms with
  | nil =>
    intro m hm
    rw [buildMessages] at h
    injection h with h2
    subst h2
    cases hm
  | cons r rs ih =>
    intro m hm
    rw [buildMessages] at h
    cases hr : rowMessage r with
    | error e => rw [hr] at h; cases h
    | ok m0 =>
      rw [hr] at h
      cases hrs : buildMessages rs with
      | error e => rw [hrs] at h; cases h
      | ok ms0 =>
        rw [hrs] at h
        injection h with h2
        subst h2
        rcases List.mem_cons.mp hm with rfl | hm2
        · exact ⟨r, List.mem_cons_self r rs, hr⟩
        · obtain ⟨r2, hr2a, hr2b⟩ := ih hrs m hm2
          exact ⟨r2, List.mem_cons_of_mem r hr2a, hr2b⟩

theorem selectedRecords_mem {bw ds : List GameRecord} {re : Regex} {r : GameRecord}
    (h : r ∈ selectedRecords bw ds re) : r ∈ bw ∨ r ∈ ds := by
  unfold selectedRecords at h
  by_cases hp : (primaryMatches bw re).isEmpty = true
  · simp only [hp, if_true] at h
    exact Or.inr (List.mem_filter.mp h).1
  · simp only [hp, if_false, Bool.false_eq_true] at h
    exact Or.inl (List.mem_filter.mp h).1

theorem summaryList_shape (desc : List Char) :
    summaryList desc = [] ∨
    ∃ nm its rest, summaryList desc = renderCat nm its :: rest ∧
      (nm = "🎲 基本玩法" ∨ nm = "💥 特色機制" ∨ nm = "🛠️ 功能特色") := by
  unfold summaryList
  cases hb : (basicItems desc).isEmpty with
  | false =>
    right
    refine ⟨"🎲 基本玩法", basicItems desc,
      (if (specialItems desc).isEmpty then [] else [renderCat "💥 特色機制" (specialItems desc)]) ++
      (if (funcItems desc).isEmpty then [] else [renderCat "🛠️ 功能特色" (funcItems desc)]),
      by simp [hb], Or.inl rfl⟩
  | true =>
    cases hs : (specialItems desc).isEmpty with
    | false =>
      right
      refine ⟨"💥 特色機制", specialItems desc,
        (if (funcItems desc).isEmpty then [] else [renderCat "🛠️ 功能特色" (funcItems desc)]),
        by simp [hb, hs], Or.inr (Or.inl rfl)⟩
    | true =>
      cases hf : (funcItems desc).isEmpty with
      | false =>
        right
        refine ⟨"🛠️ 功能特色", funcItems desc, [],
          by simp [hb, hs, hf], Or.inr (Or.inr rfl)⟩
      | true => left; simp [hb, hs, hf]

/-- The regex \d+ as parsed. -/
def dplus : Regex := .cat (.cls .digit) (.star (.cls .digit))

/-- The regex \s* as parsed. -/
def sstar : Regex := .star (.cls .space)

/-- The first pattern of the category 基本盤面 as parsed. -/
def advGridRe : Regex :=
  .cat dplus (.cat sstar (.cat (.cls (.lit 'x')) (.cat sstar (.cat dplus .eps))))

theorem parse_advGrid : parseRegex "\\d+\\s*x\\s*\\d+" = some advGridRe := by decide

theorem rmatch_dstar {l : List Char} (h : ∀ c ∈ l, isDigitC c = true) :
    RMatch (.star (.cls .digit)) l := by
  induction l with
  | nil => exact RMatch.starNil
  | cons c cs ih =>
    have hc : clsMatch .digit c = true := by
      simpa [clsMatch] using h c (List.mem_cons_self c cs)
    have := RMatch.starCons (RMatch.cls hc)
      (ih (fun d hd => h d (List.mem_cons_of_mem c hd)))
    simpa using this

theorem rmatch_dplus {l : List Char} (hne : l ≠ []) (h : ∀ c ∈ l, isDigitC c = true) :
    RMatch dplus l := by
  cases l with
  | nil => exact absurd rfl hne
  | cons c cs =>
    have hc : clsMatch .digit c = true := by
      simpa [clsMatch] using h c (List.mem_cons_self c cs)
    have := RMatch.cat (RMatch.cls hc)
      (rmatch_dstar (fun d hd => h d (List.mem_cons_of_mem c hd)))
    simpa using this

theorem rmatch_sstar_space : RMatch sstar [' '] := by
  have hc : clsMatch .space ' ' = true := by decide
  have := RMatch.starCons (RMatch.cls hc) (RMatch.starNil (r := .cls .space))
  simpa using this

theorem rmatch_advGrid {ds1 ds2 : List Char} (h1 : ds1 ≠ []) (h2 : ds2 ≠ [])
    (hd1 : ∀ c ∈ ds1, isDigitC c = true) (hd2 : ∀ c ∈ ds2, isDigitC c = true) :
    RMatch advGridRe (ds1 ++ (' ' :: 'x' :: ' ' :: ds2)) := by
  have hx : RMatch (Regex.cls (.lit 'x')) ['x'] := RMatch.cls (by decide)
  have h5 : RMatch (Regex.cat dplus .eps) (ds2 ++ []) :=
    RMatch.cat (rmatch_dplus h2 hd2) RMatch.eps
  have h4 : RMatch (Regex.cat sstar (.cat dplus .eps)) ([' '] ++ (ds2 ++ [])) :=
    RMatch.cat rmatch_sstar_space h5
  have h3 : RMatch (Regex.cat (.cls (.lit 'x')) (.cat sstar (.cat dplus .eps)))
      (['x'] ++ ([' '] ++ (ds2 ++ []))) := RMatch.cat hx h4
  have h2' : RMatch (Regex.cat sstar (.cat (.cls (.lit 'x')) (.cat sstar (.cat dplus .eps))))
      ([' '] ++ (['x'] ++ ([' '] ++ (ds2 ++ [])))) := RMatch.cat rmatch_sstar_space h3
  have h1' := RMatch.cat (rmatch_dplus h1 hd1) h2'
  simpa [advGridRe] using h1'

/-! Spec-side definitions and concrete inputs used by the claim theorems. -/

/-- Spec-side matching policy of the lookup claims, written from the
spec's words: case-insensitive substring containment of the keyword in
the record's name field. -/
def nameContainsKeywordCI (name kw : String) : Bool :=
  containsL (pyLowerL name.data) (pyLowerL kw.data)

/-- Does any trigger substring or pattern of analyze_game_features occur
in the lowered description? -/
def triggersAny (desc : List Char) : Bool :=
  (gridGroup desc).isSome ||
  containsL desc "cluster pays".data ||
  containsL desc "megaways".data ||
  containsL desc "ways to win".data ||
  (containsL desc "tumble".data || containsL desc "cascade".data) ||
  containsL desc "expanding symbol".data ||
  containsL desc "sticky".data ||
  containsL desc "walking wild".data ||
  containsL desc "free spin".data ||
  containsL desc "multiplier".data ||
  (containsL desc "bonus buy".data || containsL desc "buy feature".data) ||
  containsL desc "jackpot".data

/-- A description contains a grid dimension written with one space on
each side of the letter x: some occurrence digits, space, x, space,
digits. -/
def hasSpacedGridOcc (s : List Char) : Prop :=
  ∃ pre ds1 ds2 post, s = pre ++ ds1 ++ (' ' :: 'x' :: ' ' :: ds2) ++ post ∧
    ds1 ≠ [] ∧ ds2 ≠ [] ∧ (∀ c ∈ ds1, isDigitC c = true) ∧ (∀ c ∈ ds2, isDigitC c = true)

/-- A record whose description cell is a string, so that len() cannot hit
a NaN. -/
def descOk (r : GameRecord) : Prop :=
  r.Description.getD (r.description.getD (.str "")) ≠ PdValue.nan

/-- The example description of the spec's testable properties. -/
def exampleDesc : String :=
  "Big wheel bonus, 5x3 grid, free spins with up to 50,000x max win, buy feature available"

/-- A one-row bigwinboard collection. -/
def recBonanza : GameRecord := { Title := some (.str "Bonanza") }

/-- A one-row demoslot collection. -/
def recDemo : GameRecord := { game_name := some (.str "Sweet Bonanza Demo") }

/-- A demoslot row whose description mentions a mechanic. -/
def recDemoMega : GameRecord :=
  { game_name := some (.str "Mega Test"),
    description := some (.str "megaways slot with sticky wilds"),
    url := some (.str "https://example.com") }

/-! Claim theorems. -/

/-- C4 counterexample: the feature extractor has no maximum-win rule, so
for the example description containing 50,000x the emitted label text
does not embed 50,000x, contradicting the claim. -/
theorem c4_counterexample :
    containsL (analyze_game_features exampleDesc).data ("50,000x".data) = false := by
  decide

/-- C4 (amended): the only rule of analyze_game_features embedding
literal captured text is the grid-structure rule; for the example
description the output embeds the captured grid text 5x3 and does not
embed 50,000x. -/
theorem c4_amended :
    containsL (analyze_game_features exampleDesc).data ("5x3".data) = true ∧
    containsL (analyze_game_features exampleDesc).data ("50,000x".data) = false := by
  constructor <;> decide

/-- C5: every description containing megaways in any letter case (that
is, whose lowering contains the substring megaways) yields the Megaways
label in the 基本玩法 category, and the label occurs in the rendered
output of analyze_game_features. -/
theorem c5_megaways (d : String)
    (h : containsL (pyLowerL d.data) ("megaways".data) = true) :
    "Megaways" ∈ basicItems (pyLowerL d.data) ∧
    containsL (analyze_game_features d).data ("Megaways".data) = true := by
  have hmem : "Megaways" ∈ basicItems (pyLowerL d.data) := by
    simp [basicItems, h]
  refine ⟨hmem, ?_⟩
  have hbne : (basicItems (pyLowerL d.data)).isEmpty = false := by
    cases hb : basicItems (pyLowerL d.data) with
    | nil => rw [hb] at hmem; cases hmem
    | cons a as => rfl
  have hsum : summaryList (pyLowerL d.data) =
      renderCat "🎲 基本玩法" (basicItems (pyLowerL d.data)) ::
      ((if (specialItems (pyLowerL d.data)).isEmpty then []
        else [renderCat "💥 特色機制" (specialItems (pyLowerL d.data))]) ++
       (if (funcItems (pyLowerL d.data)).isEmpty then []
        else [renderCat "🛠️ 功能特色" (funcItems (pyLowerL d.data))])) := by
    simp [summaryList, hbne]
  have hdef : analyze_game_features d =
      (if (summaryList (pyLowerL d.data)).isEmpty then "⚠️ 無法從描述中解析出玩法資訊。"
       else joinSep "\n\n" (summaryList (pyLowerL d.data))) := rfl
  rw [hdef, hsum]
  simp only [List.isEmpty_cons, Bool.false_eq_true, if_false]
  obtain ⟨t, ht⟩ := joinSep_data_cons "\n\n"
    (renderCat "🎲 基本玩法" (basicItems (pyLowerL d.data))) _
  rw [ht]
  apply containsL_append_left
  unfold renderCat
  rw [strData_append, strData_append]
  apply containsL_append_right
  apply containsL_append_right
  exact containsL_join_of_mem hmem "\n• "

/-- C5 witness at a concrete description. -/
theorem c5_megaways_witness :
    containsL (pyLowerL ("Play MegaWays now" : String).data) ("megaways".data) = true ∧
    ("Megaways" ∈ basicItems (pyLowerL ("Play MegaWays now" : String).data) ∧
     containsL (analyze_game_features "Play MegaWays now").data ("Megaways".data) = true) :=
  ⟨by decide, c5_megaways "Play MegaWays now" (by decide)⟩

/-- C7: advanced_analyze_game is first-match-wins per category: the lines
are exactly one line per category whose pattern list has a first firing
pattern, produced from that first pattern, in table order; and the
rendering joins them under the fixed heading. -/
theorem c7_first_match (d : String) :
    advancedLines (pyLowerL d.data) =
      GAME_FEATURE_RULES.filterMap (fun cp =>
        ((cp.2).find? (patMatches (pyLowerL d.data))).map
          (hitLine (pyLowerL d.data) cp.1)) ∧
    advanced_analyze_game d =
      (if (advancedLines (pyLowerL d.data)).isEmpty then "⚠️ 無法解析明確玩法資訊"
       else "📊 進階玩法解析：\n" ++ joinSep "\n" (advancedLines (pyLowerL d.data))) :=
  ⟨advancedScan_eq_filterMap _ _, rfl⟩

/-- C8: with the empty keyword every record of the searched collection
matches (the primary collection when it is nonempty, else the fallback),
and head(3) keeps exactly three records, or all of them when the
collection is smaller, in original order. -/
theorem c8_empty_keyword (bw ds : List GameRecord) :
    search_game_records bw ds "" 3 = some ((if bw.isEmpty then ds else bw).take 3) ∧
    ((if bw.isEmpty then ds else bw).take 3).length =
      min 3 (if bw.isEmpty then ds else bw).length := by
  have hc : compileCI "" = some .eps := rfl
  have hp : primaryMatches bw .eps = bw :=
    filter_rsearch_eps (fun r => pyLowerL (bwTitle r).data) bw
  have hf : fallbackMatches ds .eps = ds :=
    filter_rsearch_eps (fun r => pyLowerL (dsName r).data) ds
  constructor
  · have h1 : search_game_records bw ds "" 3 = some ((selectedRecords bw ds .eps).take 3) := by
      rw [search_game_records, hc]
      rfl
    have hsel : selectedRecords bw ds .eps = if bw.isEmpty then ds else bw := by
      simp [selectedRecords, hp, hf]
    rw [h1, hsel]
  · exact List.length_take 3 _

theorem isEmpty_eq_nil {α : Type} {l : List α} (h : l.isEmpty = true) : l = [] := by
  cases l with
  | nil => rfl
  | cons a as => simp [List.isEmpty] at h

theorem renderCat_data_cons (nm tail0 : String) (its : List String) (c : Char)
    (h : nm.data = c :: tail0.data) :
    (renderCat nm its).data = c :: (tail0.data ++ ("：\n• " ++ joinSep "\n• " its).data) := by
  unfold renderCat
  rw [strData_append, h]
  rfl

theorem advancedScan_any_head {desc : List Char} {category : String} {pats : List String}
    {rest : List (String × List String)} {line : String} {f : String → Bool}
    (hl : firstHit desc category pats = some line) (hf : f line = true) :
    (advancedScan desc ((category, pats) :: rest)).any f = true := by
  rw [advancedScan, hl]
  simp [hf]

/-- C6: the output of analyze_game_features is the fixed sentinel exactly
when no trigger substring or pattern occurs in the lowered description,
and otherwise it renders exactly the categories with at least one entry,
in fixed category order with entries in rule order (empty categories are
omitted, never emitted empty). -/
theorem c6_sentinel_structure (d : String) :
    (analyze_game_features d = "⚠️ 無法從描述中解析出玩法資訊。" ↔
      triggersAny (pyLowerL d.data) = false) ∧
    summaryList (pyLowerL d.data) =
      ([("🎲 基本玩法", basicItems (pyLowerL d.data)),
        ("💥 特色機制", specialItems (pyLowerL d.data)),
        ("🛠️ 功能特色", funcItems (pyLowerL d.data))].filter
          (fun p => !p.2.isEmpty)).map (fun p => renderCat p.1 p.2) := by
  have hdef : analyze_game_features d =
      (if (summaryList (pyLowerL d.data)).isEmpty then "⚠️ 無法從描述中解析出玩法資訊。"
       else joinSep "\n\n" (summaryList (pyLowerL d.data))) := rfl
  constructor
  · constructor
    · intro heq
      have hnil : summaryList (pyLowerL d.data) = [] := by
        rcases summaryList_shape (pyLowerL d.data) with hn | ⟨nm, its, rest, hshape, hnm⟩
        · exact hn
        · exfalso
          rw [hdef, hshape] at heq
          simp only [List.isEmpty_cons, Bool.false_eq_true, if_false] at heq
          rcases hnm with rfl | rfl | rfl
          · exact joinSep_ne_of_head "\n\n" _ rest '🎲' '⚠' _
              (renderCat_data_cons _ " 基本玩法" its '🎲' rfl)
              "⚠️ 無法從描述中解析出玩法資訊。" rfl (by decide) heq
          · exact joinSep_ne_of_head "\n\n" _ rest '💥' '⚠' _
              (renderCat_data_cons _ " 特色機制" its '💥' rfl)
              "⚠️ 無法從描述中解析出玩法資訊。" rfl (by decide) heq
          · exact joinSep_ne_of_head "\n\n" _ rest '🛠' '⚠' _
              (renderCat_data_cons _ "️ 功能特色" its '🛠' rfl)
              "⚠️ 無法從描述中解析出玩法資訊。" rfl (by decide) heq
      have hnil2 := hnil
      unfold summaryList at hnil2
      rcases List.append_eq_nil.mp hnil2 with ⟨h12, hC⟩
      rcases List.append_eq_nil.mp h12 with ⟨hA, hB⟩
      have hbE : basicItems (pyLowerL d.data) = [] :=
        isEmpty_eq_nil (ite_nil_singleton_eq_nil hA)
      have hsE : specialItems (pyLowerL d.data) = [] :=
        isEmpty_eq_nil (ite_nil_singleton_eq_nil hB)
      have hfE : funcItems (pyLowerL d.data) = [] :=
        isEmpty_eq_nil (ite_nil_singleton_eq_nil hC)
      have hb2 := hbE
      unfold basicItems at hb2
      rcases List.append_eq_nil.mp hb2 with ⟨hb12, hb4⟩
      rcases List.append_eq_nil.mp hb12 with ⟨hb123, hb3⟩
      rcases List.append_eq_nil.mp hb123 with ⟨hbM, hb1⟩
      have hgr : gridGroup (pyLowerL d.data) = none := by
        cases hg : gridGroup (pyLowerL d.data) with
        | none => rfl
        | some g => rw [hg] at hbM; cases hbM
      have hcp := ite_singleton_nil_eq_nil hb1
      have hmw := ite_singleton_nil_eq_nil hb3
      have hww := ite_singleton_nil_eq_nil hb4
      have hs2 := hsE
      unfold specialItems at hs2
      rcases List.append_eq_nil.mp hs2 with ⟨hs12, hs4⟩
      rcases List.append_eq_nil.mp hs12 with ⟨hs123, hs3⟩
      rcases List.append_eq_nil.mp hs123 with ⟨hs1, hs2b⟩
      have htc := ite_singleton_nil_eq_nil hs1
      have hes := ite_singleton_nil_eq_nil hs2b
      have hst := ite_singleton_nil_eq_nil hs3
      have hwk := ite_singleton_nil_eq_nil hs4
      have hf2 := hfE
      unfold funcItems at hf2
      rcases List.append_eq_nil.mp hf2 with ⟨hf12, hf4⟩
      rcases List.append_eq_nil.mp hf12 with ⟨hf123, hf3⟩
      rcases List.append_eq_nil.mp hf123 with ⟨hf1, hf2b⟩
      have hfs := ite_singleton_nil_eq_nil hf1
      have hmu := ite_singleton_nil_eq_nil hf2b
      have hbb := ite_singleton_nil_eq_nil hf3
      have hjp := ite_singleton_nil_eq_nil hf4
      simp only [triggersAny, hgr, Option.isSome_none, Bool.false_or, Bool.or_eq_false_iff]
      simp only [Bool.not_eq_true] at htc hbb
      refine ⟨⟨⟨⟨⟨⟨⟨⟨⟨⟨?_, ?_⟩, ?_⟩, ?_⟩, ?_⟩, ?_⟩, ?_⟩, ?_⟩, ?_⟩, ?_⟩, ?_⟩ <;>
        simp_all [Bool.not_eq_true]
    · intro htrig
      simp only [triggersAny, Bool.or_eq_false_iff] at htrig
      obtain ⟨⟨⟨⟨⟨⟨⟨⟨⟨⟨⟨hgrid, hcp⟩, hmw⟩, hww⟩, ⟨htc1, htc2⟩⟩, hes⟩, hst⟩, hwk⟩, hfs⟩, hmu⟩, ⟨hbb1, hbb2⟩⟩, hjp⟩ := htrig
      have hgr : gridGroup (pyLowerL d.data) = none := by
        cases hg : gridGroup (pyLowerL d.data) with
        | none => rfl
        | some g => rw [hg] at hgrid; simp at hgrid
      have hbE : basicItems (pyLowerL d.data) = [] := by
        simp [basicItems, hgr, hcp, hmw, hww]
      have hsE : specialItems (pyLowerL d.data) = [] := by
        simp [specialItems, htc1, htc2, hes, hst, hwk]
      have hfE : funcItems (pyLowerL d.data) = [] := by
        simp [funcItems, hfs, hmu, hbb1, hbb2, hjp]
      have hnil : summaryList (pyLowerL d.data) = [] := by
        simp [summaryList, hbE, hsE, hfE]
      rw [hdef, hnil]
      rfl
  · cases hb : (basicItems (pyLowerL d.data)).isEmpty <;>
      cases hs : (specialItems (pyLowerL d.data)).isEmpty <;>
      cases hf : (funcItems (pyLowerL d.data)).isEmpty <;>
      simp [summaryList, List.filter_cons, hb, hs, hf]

/-- C1 counterexample: the keyword is compiled as a regular expression,
not matched as a literal substring: the keyword consisting of one dot
selects the record named Bonanza although the dot is not a substring of
the name under case-insensitive comparison. -/
theorem c1_counterexample :
    search_game_records [recBonanza] [] "." 3 = some [recBonanza] ∧
    nameContainsKeywordCI (bwTitle recBonanza) "." = false := by
  constructor
  · decide
  · decide

/-- C1 (amended): for every keyword free of regex metacharacters the
compiled pattern degenerates to literal search, and whenever the primary
collection has a case-insensitive substring match on the name field the
lookup returns exactly those records, in original dataset order,
truncated to max_results. -/
theorem c1_amended (bw ds : List GameRecord) (kw : String) (n : Nat)
    (hlit : isLiteralPat kw = true)
    (hne : bw.filter (fun r => nameContainsKeywordCI (bwTitle r) kw) ≠ []) :
    search_game_records bw ds kw n =
      some ((bw.filter (fun r => nameContainsKeywordCI (bwTitle r) kw)).take n) := by
  have hfil : primaryMatches bw (litRegex (pyLowerL kw.data))
      = bw.filter (fun r => nameContainsKeywordCI (bwTitle r) kw) := by
    unfold primaryMatches nameContainsKeywordCI
    apply List.filter_congr
    intro r _
    exact rsearch_lit _ _
  have h1 : search_game_records bw ds kw n
      = some ((selectedRecords bw ds (litRegex (pyLowerL kw.data))).take n) := by
    rw [search_game_records, compileCI_literal hlit]
    rfl
  have hselne : (primaryMatches bw (litRegex (pyLowerL kw.data))).isEmpty = false := by
    rw [hfil]
    cases hl : bw.filter (fun r => nameContainsKeywordCI (bwTitle r) kw) with
    | nil => exact absurd hl hne
    | cons a as => rfl
  have hsel : selectedRecords bw ds (litRegex (pyLowerL kw.data))
      = bw.filter (fun r => nameContainsKeywordCI (bwTitle r) kw) := by
    simp only [selectedRecords]
    rw [hselne]
    simp only [Bool.false_eq_true, if_false]
    exact hfil
  rw [h1, hsel]

/-- C1 witness at a concrete collection and keyword. -/
theorem c1_amended_witness :
    isLiteralPat "bon" = true ∧
    [recBonanza].filter (fun r => nameContainsKeywordCI (bwTitle r) "bon") ≠ [] ∧
    search_game_records [recBonanza] [] "bon" 3 =
      some (([recBonanza].filter (fun r => nameContainsKeywordCI (bwTitle r) "bon")).take 3) :=
  ⟨by decide, by decide, c1_amended [recBonanza] [] "bon" 3 (by decide) (by decide)⟩

/-- C2 counterexample: the lookup raises re.error for the malformed
keyword consisting of one opening parenthesis, because pandas
str.contains compiles the keyword as a regular expression. -/
theorem c2_counterexample : search_game [] [] "(" 3 = .error .reError := by
  rfl

/-- C2 (amended): for every keyword whose pattern compiles, and over
records whose description cells are strings, search_game raises nothing:
it returns a value, and the not-found sentinel string is returned as an
ordinary value when zero records match. -/
theorem c2_amended (bw ds : List GameRecord) (kw : String) (n : Nat) (re : Regex)
    (hre : compileCI kw = some re)
    (hbw : ∀ r ∈ bw, descOk r) (hds : ∀ r ∈ ds, descOk r) :
    (∃ s, search_game bw ds kw n = .ok s) ∧
    (selectedRecords bw ds re = [] → search_game bw ds kw n = .ok "❌ 找不到相關遊戲。") := by
  have hform : search_game bw ds kw n =
      (if (selectedRecords bw ds re).isEmpty then Except.ok "❌ 找不到相關遊戲。"
       else match buildMessages ((selectedRecords bw ds re).take n) with
            | .error e => .error e
            | .ok msgs => .ok (joinSep "\n\n" msgs)) := by
    unfold search_game
    rw [hre]
  have hdesc : ∀ r ∈ (selectedRecords bw ds re).take n,
      r.Description.getD (r.description.getD (.str "")) ≠ PdValue.nan := by
    intro r hr
    have hr2 : r ∈ selectedRecords bw ds re := List.mem_of_mem_take hr
    rcases selectedRecords_mem hr2 with h | h
    · exact hbw r h
    · exact hds r h
  constructor
  · by_cases hsel : (selectedRecords bw ds re).isEmpty = true
    · exact ⟨"❌ 找不到相關遊戲。", by rw [hform]; simp [hsel]⟩
    · have hsel2 : (selectedRecords bw ds re).isEmpty = false := by simpa using hsel
      obtain ⟨ms, hms⟩ := buildMessages_ok_of_descOk _ hdesc
      refine ⟨joinSep "\n\n" ms, ?_⟩
      rw [hform]
      simp [hsel2, hms]
  · intro h
    rw [hform, h]
    rfl

/-- C2 witness at a concrete valid keyword and empty collections. -/
theorem c2_amended_witness :
    compileCI "a" = some (Regex.cat (.cls (.lit 'a')) .eps) ∧
    ((∃ s, search_game [] [] "a" 3 = .ok s) ∧
     (selectedRecords [] [] (Regex.cat (.cls (.lit 'a')) .eps) = [] →
      search_game [] [] "a" 3 = .ok "❌ 找不到相關遊戲。")) :=
  ⟨by decide, c2_amended [] [] "a" 3 (Regex.cat (.cls (.lit 'a')) .eps) (by decide)
    (by simp) (by simp)⟩

/-- C3: when the keyword compiles, the not-found sentinel is returned
exactly when the primary Title filter and the fallback game_name filter
both come up empty, and when the primary filter is empty the selected
records are those of the fallback filter applied with the same rule to
the secondary collection. -/
theorem c3_fallback (bw ds : List GameRecord) (kw : String) (n : Nat) (re : Regex)
    (hre : compileCI kw = some re) :
    (search_game bw ds kw n = .ok "❌ 找不到相關遊戲。" ↔
      (primaryMatches bw re = [] ∧ fallbackMatches ds re = [])) ∧
    (primaryMatches bw re = [] → selectedRecords bw ds re = fallbackMatches ds re) := by
  have hform : search_game bw ds kw n =
      (if (selectedRecords bw ds re).isEmpty then Except.ok "❌ 找不到相關遊戲。"
       else match buildMessages ((selectedRecords bw ds re).take n) with
            | .error e => .error e
            | .ok msgs => .ok (joinSep "\n\n" msgs)) := by
    unfold search_game
    rw [hre]
  constructor
  · constructor
    · intro heq
      by_contra hboth
      have hselne : selectedRecords bw ds re ≠ [] := by
        unfold selectedRecords
        by_cases hp : (primaryMatches bw re).isEmpty = true
        · have hp2 : primaryMatches bw re = [] := isEmpty_eq_nil hp
          simp only [hp, if_true]
          intro hfe
          exact hboth ⟨hp2, hfe⟩
        · have hp2 : (primaryMatches bw re).isEmpty = false := by simpa using hp
          simp only [hp2, Bool.false_eq_true, if_false]
          intro hpe
          rw [hpe] at hp2
          simp at hp2
      have hselE : (selectedRecords bw ds re).isEmpty = false := by
        cases hl : selectedRecords bw ds re with
        | nil => exact absurd hl hselne
        | cons a as => rfl
      rw [hform] at heq
      simp only [hselE, Bool.false_eq_true, if_false] at heq
      cases hbm : buildMessages ((selectedRecords bw ds re).take n) with
      | error e => rw [hbm] at heq; cases heq
      | ok msgs =>
        rw [hbm] at heq
        injection heq with heq2
        cases msgs with
        | nil => exact absurd heq2 (by decide)
        | cons m ms =>
          obtain ⟨r, _, hrm⟩ := buildMessages_mem hbm m (List.mem_cons_self m ms)
          obtain ⟨u, hu⟩ := rowMessage_ok_head hrm
          exact joinSep_ne_of_head "\n\n" m ms '🎰' '❌' u hu
            "❌ 找不到相關遊戲。" rfl (by decide) heq2
    · rintro ⟨hp, hfe⟩
      have hsel : selectedRecords bw ds re = [] := by
        simp [selectedRecords, hp, hfe]
      rw [hform, hsel]
      rfl
  · intro hp
    simp [selectedRecords, hp]

/-- The compiled form of the keyword demo. -/
def demoRe : Regex :=
  .cat (.cls (.lit 'd')) (.cat (.cls (.lit 'e'))
    (.cat (.cls (.lit 'm')) (.cat (.cls (.lit 'o')) .eps)))

/-- C3 witness at concrete collections where only the fallback matches. -/
theorem c3_fallback_witness :
    compileCI "demo" = some demoRe ∧
    ((search_game [recBonanza] [recDemo] "demo" 3 = .ok "❌ 找不到相關遊戲。" ↔
       (primaryMatches [recBonanza] demoRe = [] ∧ fallbackMatches [recDemo] demoRe = [])) ∧
     (primaryMatches [recBonanza] demoRe = [] →
       selectedRecords [recBonanza] [recDemo] demoRe = fallbackMatches [recDemo] demoRe)) :=
  ⟨by decide, c3_fallback [recBonanza] [recDemo] "demo" 3 demoRe (by decide)⟩

/-- C9: the code evaluated at the failing input.  The demoslot record's
description field contains the keyword, yet search_by_feature returns the
not-found sentinel: in the concatenated frame the row's Description cell
is NaN, NaN is truthy, and str(NaN) is the text nan, which is what gets
searched instead of the description. -/
theorem c9_code_bug_eval :
    recDemoMega.description = some (.str "megaways slot with sticky wilds") ∧
    sbfDesc (toCombined recDemoMega) = ("nan" : String).data ∧
    search_by_feature [] [recDemoMega] "megaways" = "❌ 找不到包含該機制的遊戲。" := by
  refine ⟨rfl, by decide, by decide⟩

/-- C10 counterexample: a description containing a spaced grid dimension
can still produce a grid-structure entry in the primary extractor when an
adjacent digits-x-digits occurrence is also present. -/
theorem c10_counterexample :
    hasSpacedGridOcc (pyLowerL ("5 x 3 and 2x2" : String).data) ∧
    basicItems (pyLowerL ("5 x 3 and 2x2" : String).data) = ["格子結構：2x2"] := by
  constructor
  · exact ⟨[], ['5'], ['3'], (" and 2x2" : String).data,
      by decide, by decide, by decide, by decide, by decide⟩
  · decide

/-- C10 (amended): for a description containing a spaced grid dimension
and no adjacent digits-x-digits occurrence, the primary extractor's
基本玩法 category holds no grid-structure entry (its pattern needs the
digits adjacent to the x), while the advanced table's grid pattern
\d+\s*x\s*\d+ accepts the whitespace and the advanced analysis reports
the 基本盤面 category. -/
theorem c10_amended (d : String)
    (hocc : hasSpacedGridOcc (pyLowerL d.data))
    (hnone : gridGroup (pyLowerL d.data) = none) :
    (∀ it ∈ basicItems (pyLowerL d.data),
        isPrefL ("格子結構".data) it.data = false) ∧
    (advancedLines (pyLowerL d.data)).any
      (fun l => isPrefL ("• 基本盤面：".data) l.data) = true := by
  constructor
  · intro it hit
    simp only [basicItems, hnone, List.nil_append, List.mem_append] at hit
    rcases hit with (h | h) | h
    · rw [mem_ite_singleton h]; decide
    · rw [mem_ite_singleton h]; decide
    · rw [mem_ite_singleton h]; decide
  · obtain ⟨pre, ds1, ds2, post, hs, h1, h2, hd1, hd2⟩ := hocc
    have hsearch : rsearch advGridRe (pyLowerL d.data) = true := by
      rw [hs]
      have := rsearch_of_rmatch pre post (rmatch_advGrid h1 h2 hd1 hd2)
      simpa [List.append_assoc] using this
    have hro : rsearchOpt "\\d+\\s*x\\s*\\d+" (pyLowerL d.data) = true := by
      unfold rsearchOpt
      rw [parse_advGrid]
      exact hsearch
    have hline : ∃ line,
        firstHit (pyLowerL d.data) "基本盤面"
          ["\\d+\\s*x\\s*\\d+", "\\d+\\s*reels?", "\\d+\\s*rows?"] = some line ∧
        isPrefL ("• 基本盤面：".data) line.data = true := by
      by_cases hc : containsL (pyLowerL d.data) (("\\d+\\s*x\\s*\\d+" : String).data) = true
      · refine ⟨"• " ++ ("基本盤面" ++ ("：包含 " ++ "\\d+\\s*x\\s*\\d+")), ?_, by decide⟩
        rw [firstHit]
        simp [hc]
      · have hc2 : containsL (pyLowerL d.data) (("\\d+\\s*x\\s*\\d+" : String).data) = false := by
          simpa using hc
        refine ⟨"• " ++ ("基本盤面" ++ ("：符合 " ++ "\\d+\\s*x\\s*\\d+")), ?_, by decide⟩
        rw [firstHit]
        simp [hc2, hro]
    obtain ⟨line, hl, hp⟩ := hline
    exact advancedScan_any_head hl hp

/-- C10 witness at a concrete description with only a spaced dimension. -/
theorem c10_amended_witness :
    hasSpacedGridOcc (pyLowerL ("5 x 3 slot" : String).data) ∧
    gridGroup (pyLowerL ("5 x 3 slot" : String).data) = none ∧
    ((∀ it ∈ basicItems (pyLowerL ("5 x 3 slot" : String).data),
        isPrefL ("格子結構".data) it.data = false) ∧
     (advancedLines (pyLowerL ("5 x 3 slot" : String).data)).any
        (fun l => isPrefL ("• 基本盤面：".data) l.data) = true) :=
  ⟨⟨[], ['5'], ['3'], (" slot" : String).data,
     by decide, by decide, by decide, by decide, by decide⟩,
   by decide,
   c10_amended "5 x 3 slot"
     ⟨[], ['5'], ['3'], (" slot" : String).data,
      by decide, by decide, by decide, by decide, by decide⟩
     (by decide)⟩

end SlotApp
